import Mathlib

/-!
# Verification of the RxScan prescription-OCR server

A shallow embedding of the persistence and extraction contract of the
TypeScript repository (Express server in `server.ts`, extraction client in
`src/services/gemini.ts`), together with theorems settling the spec claims.

Conventions of the embedding:
* JavaScript strings are Lean `String`s; the character-level path and split
  operations work on `List Char` (`String.data`).
* The filesystem is a map `String → Option String` (path to file content);
  `fs.writeFileSync` overwrites, `fs.existsSync` is `Option.isSome`.
* Clock readings (`Date.now()` in milliseconds, `toISOString()` output) are
  explicit parameters of the operations that sample them.
* JSON values as JavaScript sees them are the `Json` inductive; an absent
  (`undefined`) value is `Option.none`.
-/

namespace OcrSpec

/-- JSON values (numbers modelled as rationals); `undefined` is the `none`
of a surrounding `Option Json`. -/
inductive Json where
  | null
  | bool (b : Bool)
  | num (n : Rat)
  | str (s : String)
  | arr (elems : List Json)
  | obj (fields : List (String × Json))

/-- JavaScript truthiness test on a possibly-absent JSON value: `undefined`,
`null`, `false`, `0` and `""` are falsy; objects and arrays are truthy. -/
def isFalsy : Option Json → Bool
  | none => true
  | some .null => true
  | some (.bool b) => !b
  | some (.num n) => n == 0
  | some (.str s) => s == ""
  | some (.arr _) => false
  | some (.obj _) => false

/-! ## Character-level string splitting (JS `String.prototype.split` with a
one-character separator, keeping empty segments) -/

/-- JS `s.split(sep)` on character lists: splits at every occurrence of
`sep`, keeping empty segments; the result is always nonempty. -/
def splitChar (sep : Char) : List Char → List (List Char)
  | [] => [[]]
  | c :: cs =>
    let r := splitChar sep cs
    if c = sep then [] :: r
    else
      match r with
      | [] => [[c]]
      | h :: t => (c :: h) :: t

theorem splitChar_ne_nil (sep : Char) (l : List Char) : splitChar sep l ≠ [] := by
  induction l with
  | nil => simp [splitChar]
  | cons c cs ih =>
    simp only [splitChar]
    by_cases h : c = sep
    · simp [h]
    · simp only [if_neg h]
      cases splitChar sep cs with
      | nil => simp
      | cons h t => simp

theorem not_mem_of_mem_splitChar (sep : Char) :
    ∀ l : List Char, ∀ s ∈ splitChar sep l, sep ∉ s := by
  intro l
  induction l with
  | nil => intro s hs; simp [splitChar] at hs; simp [hs]
  | cons c cs ih =>
    intro s hs
    simp only [splitChar] at hs
    by_cases h : c = sep
    · simp only [if_pos h] at hs
      rcases List.mem_cons.mp hs with h1 | h2
      · simp [h1]
      · exact ih s h2
    · simp only [if_neg h] at hs
      cases hr : splitChar sep cs with
      | nil => exact absurd hr (splitChar_ne_nil sep cs)
      | cons hd tl =>
        rw [hr] at hs
        rcases List.mem_cons.mp hs with h1 | h2
        · subst h1
          intro hmem
          rcases List.mem_cons.mp hmem with h3 | h4
          · exact h (h3.symm)
          · exact ih hd (hr ▸ List.mem_cons_self hd tl) h4
        · exact ih s (hr ▸ List.mem_cons_of_mem hd h2)

theorem splitChar_append (sep : Char) (l m : List Char) :
    splitChar sep (l ++ sep :: m) = splitChar sep l ++ splitChar sep m := by
  induction l with
  | nil => simp [splitChar]
  | cons c cs ih =>
    by_cases h : c = sep
    · simp only [List.cons_append, splitChar, if_pos h]
      exact congrArg (List.cons []) ih
    · obtain ⟨hd, tl, hr⟩ := List.exists_cons_of_ne_nil (splitChar_ne_nil sep cs)
      simp only [List.cons_append, splitChar, if_neg h, List.append_eq, ih, hr,
        List.cons_append]

theorem splitChar_of_not_mem (sep : Char) {l : List Char} (h : sep ∉ l) :
    splitChar sep l = [l] := by
  induction l with
  | nil => simp [splitChar]
  | cons c cs ih =>
    simp only [List.mem_cons, not_or] at h
    simp only [splitChar, if_neg (Ne.symm h.1), ih h.2]

/-! ## Node `path` (posix) model

The server uses `path.basename`, the two-argument `path.join("results", x)`
and `path.resolve("results")`.  `join` concatenates with `/` and normalizes
(empty and `.` segments dropped, `..` pops the previous segment, a leading
`..` of a relative path is kept, the empty result is `.`).  `resolve`
resolves against the absolute working directory and yields an absolute
path (leading `/`; `..` at the root is dropped). -/

/-- Node `path.basename` (posix): the last nonempty `/`-separated segment,
or `""` when there is none. -/
def basenameChars (l : List Char) : List Char :=
  match ((splitChar '/' l).filter (fun s => !s.isEmpty)).getLast? with
  | some s => s
  | none => []

/-- Node `path.basename` on strings. -/
def basename (s : String) : String := ⟨basenameChars s.data⟩

/-- Path normalization, step 1: drop empty and `.` segments. -/
def filterSegs (segs : List (List Char)) : List (List Char) :=
  segs.filter (fun s => !s.isEmpty && !(s == ['.']))

/-- Path normalization for a relative path: `..` pops the previously kept
segment; a `..` with nothing to pop is kept (Node keeps leading `..` of
relative paths).  `acc` is the stack of kept segments, most recent first. -/
def processSegs (acc : List (List Char)) : List (List Char) → List (List Char)
  | [] => acc.reverse
  | s :: rest =>
    if s = ['.', '.'] then
      match acc with
      | [] => processSegs [['.', '.']] rest
      | a :: as =>
        if a = ['.', '.'] then processSegs (s :: acc) rest
        else processSegs as rest
    else processSegs (s :: acc) rest

/-- Path normalization for an absolute path: `..` at the root is dropped. -/
def processAbsSegs (acc : List (List Char)) : List (List Char) → List (List Char)
  | [] => acc.reverse
  | s :: rest =>
    if s = ['.', '.'] then
      match acc with
      | [] => processAbsSegs [] rest
      | _ :: as => processAbsSegs as rest
    else processAbsSegs (s :: acc) rest

/-- Joins normalized segments with `/`. -/
def joinSegs : List (List Char) → List Char
  | [] => []
  | [s] => s
  | s :: rest => s ++ '/' :: joinSegs rest

/-- Node `path.join(a, b)` (posix, two arguments, relative result). -/
def pathJoin2 (a b : String) : String :=
  let segs := processSegs [] (filterSegs (splitChar '/' (a.data ++ '/' :: b.data)))
  ⟨if segs.isEmpty then ['.'] else joinSegs segs⟩

/-- Node `path.resolve(rel)` against the absolute working directory `cwd`. -/
def pathResolve (cwd rel : String) : String :=
  ⟨'/' :: joinSegs (processAbsSegs [] (filterSegs (splitChar '/' (cwd.data ++ '/' :: rel.data))))⟩

/-- JS `s.startsWith(p)`. -/
def jsStartsWith (s p : String) : Bool := p.data.isPrefixOf s.data

/-! ## GET /api/results/:filename — the download endpoint -/

/-- Outcome of `GET /api/results/:filename`. -/
inductive DownloadOutcome where
  | accessDenied
  | notFound
  | fileSent (content : String)
deriving DecidableEq

/-- The download handler, line for line from the source:
`filename = path.basename(req.params.filename)`,
`filepath = path.join("results", filename)`, deny unless
`filepath.startsWith(path.resolve("results"))`, then serve the file if it
exists, else 404.  `files` is the filesystem, `cwd` the working
directory `path.resolve` resolves against. -/
def downloadHandler (cwd : String) (files : String → Option String)
    (filenameParam : String) : DownloadOutcome :=
  let filename := basename filenameParam
  let filepath := pathJoin2 "results" filename
  if !(jsStartsWith filepath (pathResolve cwd "results")) then .accessDenied
  else
    match files filepath with
    | some content => .fileSent content
    | none => .notFound

/-! ### The joined path never starts with `/`, the resolved path always
does, so the guard in `downloadHandler` fires on every request. -/

theorem processSegs_ne_nil_no_slash (l : List (List Char)) : ∀ acc : List (List Char),
    (∀ s ∈ acc, s ≠ [] ∧ '/' ∉ s) → (∀ s ∈ l, s ≠ [] ∧ '/' ∉ s) →
    ∀ s ∈ processSegs acc l, s ≠ [] ∧ '/' ∉ s := by
  induction l with
  | nil =>
    intro acc hacc _ s hs
    simp only [processSegs, List.mem_reverse] at hs
    exact hacc s hs
  | cons x rest ih =>
    intro acc hacc hl s hs
    have hx := hl x (List.mem_cons_self x rest)
    have hrest : ∀ t ∈ rest, t ≠ [] ∧ '/' ∉ t :=
      fun t ht => hl t (List.mem_cons_of_mem x ht)
    by_cases hdd : x = ['.', '.']
    · cases acc with
      | nil =>
        simp only [processSegs, if_pos hdd] at hs
        refine ih _ ?_ hrest s hs
        intro t ht
        simp only [List.mem_singleton] at ht
        subst ht
        exact ⟨by simp, by decide⟩
      | cons a as =>
        by_cases ha : a = ['.', '.']
        · simp only [processSegs, if_pos hdd, if_pos ha] at hs
          refine ih _ ?_ hrest s hs
          intro t ht
          rcases List.mem_cons.mp ht with h1 | h2
          · subst h1; rw [hdd]; exact ⟨by simp, by decide⟩
          · exact hacc t h2
        · simp only [processSegs, if_pos hdd, if_neg ha] at hs
          refine ih _ ?_ hrest s hs
          intro t ht
          exact hacc t (List.mem_cons_of_mem a ht)
    · simp only [processSegs, if_neg hdd] at hs
      refine ih _ ?_ hrest s hs
      intro t ht
      rcases List.mem_cons.mp ht with h1 | h2
      · subst h1; exact hx
      · exact hacc t h2

theorem joinSegs_cons (s : List Char) (rest : List (List Char)) :
    ∃ r, joinSegs (s :: rest) = s ++ r := by
  cases rest with
  | nil => exact ⟨[], by simp [joinSegs]⟩
  | cons t ts => exact ⟨'/' :: joinSegs (t :: ts), rfl⟩

theorem pathJoin2_not_absolute (a b : String) :
    ∃ c r, (pathJoin2 a b).data = c :: r ∧ c ≠ '/' := by
  have hdata : (pathJoin2 a b).data =
      if (processSegs [] (filterSegs (splitChar '/' (a.data ++ '/' :: b.data)))).isEmpty
      then ['.']
      else joinSegs (processSegs [] (filterSegs (splitChar '/' (a.data ++ '/' :: b.data)))) :=
    rfl
  have hP : ∀ s ∈ processSegs [] (filterSegs (splitChar '/' (a.data ++ '/' :: b.data))),
      s ≠ [] ∧ '/' ∉ s := by
    apply processSegs_ne_nil_no_slash
    · intro s hs; simp at hs
    · intro s hs
      unfold filterSegs at hs
      have hmem := List.mem_of_mem_filter hs
      have hkeep := List.of_mem_filter hs
      refine ⟨?_, not_mem_of_mem_splitChar '/' _ s hmem⟩
      intro hnil
      subst hnil
      simp at hkeep
  cases hs : processSegs [] (filterSegs (splitChar '/' (a.data ++ '/' :: b.data))) with
  | nil =>
    refine ⟨'.', [], ?_, by decide⟩
    rw [hdata, hs]
    simp
  | cons h t =>
    obtain ⟨hne, hns⟩ := hP h (hs ▸ List.mem_cons_self h t)
    obtain ⟨c, cs, hc⟩ := List.exists_cons_of_ne_nil hne
    obtain ⟨r, hr⟩ := joinSegs_cons h t
    refine ⟨c, cs ++ r, ?_, ?_⟩
    · rw [hdata, hs]
      simp only [List.isEmpty_cons, Bool.false_eq_true, if_false]
      rw [hr, hc]
      simp
    · intro hcontra
      exact hns (hc ▸ (hcontra ▸ List.mem_cons_self c cs))

theorem isPrefixOf_slash_head_false (c : Char) (hc : c ≠ '/') (p r : List Char) :
    (('/' :: p).isPrefixOf (c :: r)) = false := by
  show (('/' == c) && p.isPrefixOf r) = false
  have : ('/' == c) = false := by
    simp only [beq_eq_false_iff_ne, ne_eq]
    exact fun h => hc h.symm
  simp [this]

/-- The directory-traversal guard compares the *relative* joined path with
the *absolute* resolved results directory, so it rejects every request. -/
theorem downloadHandler_denied (cwd : String) (files : String → Option String)
    (p : String) : downloadHandler cwd files p = .accessDenied := by
  unfold downloadHandler
  obtain ⟨c, r, hdata, hc⟩ := pathJoin2_not_absolute "results" (basename p)
  have hres : (pathResolve cwd "results").data =
      '/' :: joinSegs (processAbsSegs []
        (filterSegs (splitChar '/' (cwd.data ++ '/' :: ("results" : String).data)))) := rfl
  have : jsStartsWith (pathJoin2 "results" (basename p)) (pathResolve cwd "results") = false := by
    unfold jsStartsWith
    rw [hres, hdata]
    exact isPrefixOf_slash_head_false c hc _ r
  simp [this]

/-! ## POST /api/save-result — archive filename and path

Source:
`timestamp = new Date().toISOString().replace(/[:.]/g, "-").slice(0, -5)`,
`doctorName = result.metadata?.doctor_name?.replace(/\s+/g, "_") || "unknown"`,
`filename = prescription_(doctorName)_(timestamp).json`,
`filepath = path.join("results", filename)`,
`fs.writeFileSync(filepath, JSON.stringify(result, null, 2))`. -/

/-- One pass of JS `s.replace(/\s+/g, "_")`: `prevWs` records whether the
previous character was part of a whitespace run already replaced. -/
def collapseGo (prevWs : Bool) : List Char → List Char
  | [] => []
  | c :: cs =>
    if c.isWhitespace then
      if prevWs then collapseGo true cs else '_' :: collapseGo true cs
    else c :: collapseGo false cs

/-- JS `s.replace(/\s+/g, "_")`. -/
def collapseWs (s : String) : String := ⟨collapseGo false s.data⟩

/-- JS `c` replacement step of `.replace(/[:.]/g, "-")`. -/
def tsReplaceChar (c : Char) : Char := if c = ':' ∨ c = '.' then '-' else c

/-- JS `s.replace(/[:.]/g, "-")`. -/
def jsReplaceColonDot (s : String) : String := ⟨s.data.map tsReplaceChar⟩

/-- JS `s.slice(0, -5)`: all but the last five characters. -/
def jsSliceDrop5 (s : String) : String := ⟨s.data.take (s.data.length - 5)⟩

/-- The timestamp part of the archive filename, as computed by the code:
replace `:` and `.` by `-`, then drop the last five characters. -/
def makeTimestamp (iso : String) : String := jsSliceDrop5 (jsReplaceColonDot iso)

/-- JS `x || "unknown"` on the possibly-absent collapsed doctor name. -/
def jsOrUnknown : Option String → String
  | none => "unknown"
  | some s => if s = "" then "unknown" else s

/-- The archive filename computed by the save-result endpoint.
`doctor_name` is `result.metadata?.doctor_name` (absent → `none`), `iso`
the `toISOString()` reading at save time. -/
def makeFilename (doctor_name : Option String) (iso : String) : String :=
  let timestamp := makeTimestamp iso
  let doctorName := jsOrUnknown (doctor_name.map collapseWs)
  "prescription_" ++ doctorName ++ "_" ++ timestamp ++ ".json"

/-- The path the save-result endpoint writes to:
`path.join("results", filename)`. -/
def savedFilepath (doctor_name : Option String) (iso : String) : String :=
  pathJoin2 "results" (makeFilename doctor_name iso)

/-- `fs.writeFileSync` on the filesystem model: overwrites. -/
def writeFile (files : String → Option String) (path content : String) :
    String → Option String :=
  fun q => if q = path then some content else files q

/-- The write the save-result endpoint performs (`content` stands for
`JSON.stringify(result, null, 2)`). -/
def saveResultWrite (files : String → Option String) (doctor_name : Option String)
    (iso content : String) : String → Option String :=
  writeFile files (savedFilepath doctor_name iso) content

/-! ### Spec-side counterparts for the filename (refinement targets) -/

theorem length_dropWhile_le (p : Char → Bool) :
    ∀ l : List Char, (l.dropWhile p).length ≤ l.length := by
  intro l
  induction l with
  | nil => simp
  | cons c cs ih =>
    rw [List.dropWhile_cons]
    by_cases h : p c
    · simp only [if_pos h, List.length_cons]
      omega
    · simp [h]

/-- Modelled from the spec: "each whitespace run replaced by a single
underscore" — on meeting a whitespace character, emit one `_` and skip the
rest of the run. -/
def specCollapse : List Char → List Char
  | [] => []
  | c :: cs =>
    if c.isWhitespace then '_' :: specCollapse (cs.dropWhile Char.isWhitespace)
    else c :: specCollapse cs
termination_by l => l.length
decreasing_by
  · simp only [List.length_cons]
    exact Nat.lt_succ_of_le (length_dropWhile_le _ _)
  · simp

/-- Modelled from the spec: the doctor component of the filename —
`metadata.doctor_name` with whitespace runs collapsed, defaulting to
"unknown" when the name is absent or empty. -/
def specDoctor : Option String → String
  | none => "unknown"
  | some s => if s = "" then "unknown" else ⟨specCollapse s.data⟩

/-- Modelled from the spec: the timestamp component — the ISO-8601 instant
with the trailing five characters (milliseconds and offset, `.mmmZ`)
trimmed first, then every `:` and `.` replaced by `-`. -/
def specTimestamp (iso : String) : String :=
  jsReplaceColonDot ⟨iso.data.take (iso.data.length - 5)⟩

theorem collapseGo_eq_specCollapse : ∀ l : List Char,
    collapseGo false l = specCollapse l ∧
    collapseGo true l = specCollapse (l.dropWhile Char.isWhitespace) := by
  intro l
  induction l with
  | nil => simp [collapseGo, specCollapse]
  | cons c cs ih =>
    by_cases hc : c.isWhitespace
    · constructor
      · simp only [collapseGo, if_pos hc, Bool.false_eq_true, if_false, specCollapse, ih.2]
      · simp only [collapseGo, if_pos hc, List.dropWhile_cons, ih.2, specCollapse]
        simp [hc]
    · constructor
      · simp only [collapseGo, if_neg hc, specCollapse, ih.1]
      · simp [collapseGo, List.dropWhile_cons, specCollapse, ih.1, hc]

theorem collapseGo_false_ne_nil {l : List Char} (h : l ≠ []) :
    collapseGo false l ≠ [] := by
  cases l with
  | nil => exact absurd rfl h
  | cons c cs =>
    simp only [collapseGo]
    by_cases hc : c.isWhitespace <;> simp [hc]

theorem mem_collapseGo (b : Bool) (l : List Char) :
    ∀ c ∈ collapseGo b l, c ∈ l ∨ c = '_' := by
  induction l generalizing b with
  | nil => intro c hc; simp [collapseGo] at hc
  | cons x xs ih =>
    intro c hc
    simp only [collapseGo] at hc
    by_cases hx : x.isWhitespace
    · rw [if_pos hx] at hc
      cases b with
      | true =>
        simp only [if_pos rfl] at hc
        rcases ih true c hc with h | h
        · exact Or.inl (List.mem_cons_of_mem x h)
        · exact Or.inr h
      | false =>
        simp only [Bool.false_eq_true, if_false] at hc
        rcases List.mem_cons.mp hc with h | h
        · exact Or.inr h
        · rcases ih true c h with h2 | h2
          · exact Or.inl (List.mem_cons_of_mem x h2)
          · exact Or.inr h2
    · rw [if_neg hx] at hc
      rcases List.mem_cons.mp hc with h | h
      · exact Or.inl (h ▸ List.mem_cons_self x xs)
      · rcases ih false c h with h2 | h2
        · exact Or.inl (List.mem_cons_of_mem x h2)
        · exact Or.inr h2

/-! ### Joining a clean filename stays under `results/` -/

theorem isPrefixOf_append_self : ∀ l m : List Char, l.isPrefixOf (l ++ m) = true := by
  intro l m
  induction l with
  | nil => simp [List.isPrefixOf]
  | cons c cs ih =>
    show ((c == c) && cs.isPrefixOf (cs ++ m)) = true
    simp [ih]

theorem pathJoin2_results (f : String) (h1 : '/' ∉ f.data) (h2 : f.data ≠ [])
    (h3 : f.data ≠ ['.']) (h4 : f.data ≠ ['.', '.']) :
    pathJoin2 "results" f = "results/" ++ f := by
  have hsplit : splitChar '/' (("results" : String).data ++ '/' :: f.data) =
      [("results" : String).data, f.data] := by
    rw [splitChar_append, splitChar_of_not_mem '/' (by decide), splitChar_of_not_mem '/' h1]
    simp
  have hfilter : filterSegs [("results" : String).data, f.data] =
      [("results" : String).data, f.data] := by
    unfold filterSegs
    rw [List.filter_cons_of_pos (by decide), List.filter_cons_of_pos ?_, List.filter_nil]
    simp only [Bool.and_eq_true, Bool.not_eq_true']
    constructor
    · cases hf : f.data with
      | nil => exact absurd hf h2
      | cons a l => simp
    · simp only [beq_eq_false_iff_ne, ne_eq]
      exact h3
  have hproc : processSegs [] [("results" : String).data, f.data] =
      [("results" : String).data, f.data] := by
    simp only [processSegs, if_neg (by decide : ¬ ("results" : String).data = ['.', '.']),
      if_neg h4, List.reverse_cons, List.reverse_nil, List.nil_append, List.cons_append,
      List.singleton_append]
  have hdata : (pathJoin2 "results" f).data =
      if (processSegs [] (filterSegs (splitChar '/'
          (("results" : String).data ++ '/' :: f.data)))).isEmpty
      then ['.']
      else joinSegs (processSegs [] (filterSegs (splitChar '/'
          (("results" : String).data ++ '/' :: f.data)))) := rfl
  rw [hsplit, hfilter, hproc] at hdata
  apply String.ext
  rw [hdata]
  simp only [List.isEmpty_cons, Bool.false_eq_true, if_false, joinSegs]
  rw [String.data_append]
  have : ("results/" : String).data = ("results" : String).data ++ ['/'] := by decide
  rw [this]
  simp

/-! ### The computed filename is clean whenever the doctor name and the
ISO timestamp contain no `/` -/

theorem makeFilename_data (dn : Option String) (iso : String) :
    (makeFilename dn iso).data =
      ("prescription_" : String).data ++ ((jsOrUnknown (dn.map collapseWs)).data ++
        (("_" : String).data ++ ((makeTimestamp iso).data ++ (".json" : String).data))) := by
  simp [makeFilename, String.data_append]

theorem makeTimestamp_no_slash (iso : String) (hiso : '/' ∉ iso.data) :
    '/' ∉ (makeTimestamp iso).data := by
  intro hmem
  have h1 : '/' ∈ (jsReplaceColonDot iso).data := List.take_subset _ _ hmem
  simp only [jsReplaceColonDot, List.mem_map] at h1
  obtain ⟨x, hx, hfx⟩ := h1
  unfold tsReplaceChar at hfx
  by_cases hc : x = ':' ∨ x = '.'
  · rw [if_pos hc] at hfx
    exact absurd hfx (by decide)
  · rw [if_neg hc] at hfx
    exact hiso (hfx ▸ hx)

theorem collapseWs_no_slash (s : String) (hs : '/' ∉ s.data) :
    '/' ∉ (collapseWs s).data := by
  intro hmem
  rcases mem_collapseGo false s.data '/' hmem with h | h
  · exact hs h
  · exact absurd h (by decide)

theorem jsOrUnknown_no_slash (dn : Option String) (hdn : '/' ∉ (dn.getD "").data) :
    '/' ∉ (jsOrUnknown (dn.map collapseWs)).data := by
  cases dn with
  | none => simp only [Option.map_none', jsOrUnknown]; decide
  | some s =>
    simp only [Option.map_some', jsOrUnknown]
    by_cases he : collapseWs s = ""
    · rw [if_pos he]; decide
    · rw [if_neg he]
      exact collapseWs_no_slash s hdn

theorem makeFilename_no_slash (dn : Option String) (iso : String)
    (hdn : '/' ∉ (dn.getD "").data) (hiso : '/' ∉ iso.data) :
    '/' ∉ (makeFilename dn iso).data := by
  rw [makeFilename_data]
  simp only [List.mem_append, not_or]
  refine ⟨by decide, jsOrUnknown_no_slash dn hdn, by decide,
    makeTimestamp_no_slash iso hiso, by decide⟩

theorem makeFilename_head (dn : Option String) (iso : String) :
    ∃ r, (makeFilename dn iso).data = 'p' :: r := by
  rw [makeFilename_data]
  exact ⟨_, rfl⟩

theorem savedFilepath_confined (dn : Option String) (iso : String)
    (hdn : '/' ∉ (dn.getD "").data) (hiso : '/' ∉ iso.data) :
    savedFilepath dn iso = "results/" ++ makeFilename dn iso ∧
    jsStartsWith (savedFilepath dn iso) "results/" = true := by
  obtain ⟨r, hr⟩ := makeFilename_head dn iso
  have hmain : savedFilepath dn iso = "results/" ++ makeFilename dn iso := by
    unfold savedFilepath
    apply pathJoin2_results
    · exact makeFilename_no_slash dn iso hdn hiso
    · rw [hr]; exact List.cons_ne_nil 'p' r
    · rw [hr]; intro h; simp at h
    · rw [hr]; intro h; simp at h
  refine ⟨hmain, ?_⟩
  unfold jsStartsWith
  rw [hmain, String.data_append]
  exact isPrefixOf_append_self _ _

/-- C2 (amended): whenever `metadata.doctor_name` and the ISO timestamp
contain no `/` (the timestamp, produced by `toISOString`, never does), the
path written by the save-result endpoint is exactly
`results/<filename>` and so stays under the results directory.  (As
stated — for arbitrary doctor names — the claim is refuted by
`saveResult_escape_counterexample`.) -/
theorem saveResult_path_confined (dn : Option String) (iso : String)
    (hdn : '/' ∉ (dn.getD "").data) (hiso : '/' ∉ iso.data) :
    savedFilepath dn iso = "results/" ++ makeFilename dn iso ∧
    jsStartsWith (savedFilepath dn iso) "results/" = true :=
  savedFilepath_confined dn iso hdn hiso

/-- C2 fails as stated: a payload whose `metadata.doctor_name` is
`"../../../etc/pwn"` is written to `etc/pwn_<ts>.json`, outside the
results directory, because `path.join` resolves the `..` segments the
whitespace-only sanitization leaves intact. -/
theorem saveResult_escape_counterexample :
    savedFilepath (some "../../../etc/pwn") "2025-01-01T00:00:00.000Z" =
      "etc/pwn_2025-01-01T00-00-00.json" ∧
    jsStartsWith (savedFilepath (some "../../../etc/pwn") "2025-01-01T00:00:00.000Z")
      "results/" = false ∧
    savedFilepath (some "../../../etc/pwn") "2025-01-01T00:00:00.000Z" ≠ "results" := by
  decide

/-- Witness for `saveResult_path_confined` at a concrete clean input. -/
theorem saveResult_path_confined_witness :
    savedFilepath (some "Dr. Jane Smith") "2025-03-04T05:06:07.890Z" =
      "results/" ++ makeFilename (some "Dr. Jane Smith") "2025-03-04T05:06:07.890Z" :=
  (saveResult_path_confined (some "Dr. Jane Smith") "2025-03-04T05:06:07.890Z"
    (by decide) (by decide)).1

/-! ## Claim C1 — the archive read endpoint -/

/-- C1 (code bug): the claim says the endpoint serves the file's bytes iff
the confined path is under the results directory and the file exists, with
404 for a missing confined file.  In the code, `filepath` is the
*relative* `path.join("results", basename)` while the guard compares it
with the *absolute* `path.resolve("results")`, so `startsWith` is false
for every request and the endpoint answers 403 ACCESS_DENIED always —
even for an existing well-formed filename, and never 404 or a download. -/
theorem resultsRead_always_denied :
    (∀ (cwd : String) (files : String → Option String) (p : String),
      downloadHandler cwd files p = .accessDenied) ∧
    downloadHandler "/app" (writeFile (fun _ => none) "results/a.json" "content") "a.json" =
      .accessDenied := by
  refine ⟨fun cwd files p => downloadHandler_denied cwd files p, ?_⟩
  exact downloadHandler_denied _ _ _

/-! ## Claim C4 — the archive filename -/

theorem collapseWs_eq_specCollapse (s : String) : collapseWs s = ⟨specCollapse s.data⟩ :=
  congrArg String.mk (collapseGo_eq_specCollapse s.data).1

theorem makeTimestamp_eq_specTimestamp (iso : String) :
    makeTimestamp iso = specTimestamp iso := by
  apply String.ext
  simp [makeTimestamp, jsSliceDrop5, jsReplaceColonDot, specTimestamp,
    List.length_map, List.map_take]

theorem jsOrUnknown_eq_specDoctor (dn : Option String) :
    jsOrUnknown (dn.map collapseWs) = specDoctor dn := by
  cases dn with
  | none => rfl
  | some s =>
    simp only [Option.map_some', jsOrUnknown, specDoctor]
    by_cases he : s = ""
    · subst he
      simp [collapseWs, collapseGo]
    · have hdne : s.data ≠ [] := by
        intro hd
        exact he (String.ext hd)
      have hcol : collapseWs s ≠ "" := by
        intro h
        have h2 : collapseGo false s.data = [] := congrArg String.data h
        exact collapseGo_false_ne_nil hdne h2
      rw [if_neg hcol, if_neg he]
      exact collapseWs_eq_specCollapse s

/-- C4: the archive filename is exactly
`prescription_<doctor>_<timestamp>.json` with `<doctor>` the doctor name
with each whitespace run collapsed to one underscore (default "unknown"
when absent or empty) and `<timestamp>` the ISO instant with `:`/`.`
hyphenated and the trailing `.mmmZ` trimmed; "Dr. Jane Smith" gives the
expected concrete filename; a second save computing the same name
overwrites the prior file. -/
theorem archive_filename_spec :
    (∀ (dn : Option String) (iso : String),
      makeFilename dn iso =
        "prescription_" ++ specDoctor dn ++ "_" ++ specTimestamp iso ++ ".json") ∧
    makeFilename (some "Dr. Jane Smith") "2025-03-04T05:06:07.890Z" =
      "prescription_Dr._Jane_Smith_2025-03-04T05-06-07.json" ∧
    (∀ (files : String → Option String) (dn : Option String) (iso c1 c2 : String),
      saveResultWrite (saveResultWrite files dn iso c1) dn iso c2 (savedFilepath dn iso) =
        some c2) := by
  refine ⟨?_, by decide, ?_⟩
  · intro dn iso
    unfold makeFilename
    rw [jsOrUnknown_eq_specDoctor, makeTimestamp_eq_specTimestamp]
  · intro files dn iso c1 c2
    simp [saveResultWrite, writeFile]

/-! ## Claim C6 — archive round trip -/

/-- C6 (code bug): the round-trip property fails in the code.  After the
save-result endpoint writes the serialized result to
`results/<filename>`, requesting that very filename from the read
endpoint yields 403 ACCESS_DENIED (the broken traversal guard of C1), not
the saved bytes: the file is present in the filesystem, yet the response
is `accessDenied` for every working directory, doctor name, timestamp and
serialized content. -/
theorem roundTrip_read_denied (cwd : String) (dn : Option String) (iso content : String)
    (hdn : '/' ∉ (dn.getD "").data) (hiso : '/' ∉ iso.data) :
    saveResultWrite (fun _ => none) dn iso content
      ("results/" ++ makeFilename dn iso) = some content ∧
    downloadHandler cwd (saveResultWrite (fun _ => none) dn iso content)
      (makeFilename dn iso) = .accessDenied ∧
    ∀ c, downloadHandler cwd (saveResultWrite (fun _ => none) dn iso content)
      (makeFilename dn iso) ≠ .fileSent c := by
  refine ⟨?_, downloadHandler_denied _ _ _, ?_⟩
  · rw [← (savedFilepath_confined dn iso hdn hiso).1]
    simp [saveResultWrite, writeFile]
  · intro c h
    rw [downloadHandler_denied] at h
    exact DownloadOutcome.noConfusion h

/-- Witness for `roundTrip_read_denied` at a concrete save. -/
theorem roundTrip_read_denied_witness :
    downloadHandler "/app"
      (saveResultWrite (fun _ => none) (some "Dr. Jane Smith") "2025-03-04T05:06:07.890Z" "payload")
      (makeFilename (some "Dr. Jane Smith") "2025-03-04T05:06:07.890Z") = .accessDenied :=
  (roundTrip_read_denied "/app" (some "Dr. Jane Smith") "2025-03-04T05:06:07.890Z" "payload"
    (by decide) (by decide)).2.1

/-! ## The Result Store (`prescriptions.json`)

The store file always holds a JSON array; on every operation it is read in
full and rewritten in full.  The embedded state is the parsed array.  Each
`savePrescription` samples `Date.now()` (milliseconds, the record id) and
`new Date().toISOString()`; both clock readings are explicit arguments. -/

/-- A stored prescription record: `id: Date.now()`, `data` the
caller-supplied payload (`none` models JS `undefined`), `created_at` the
ISO timestamp sampled at write time. -/
structure StoredRecord where
  id : Nat
  data : Option Json
  created_at : String

/-- `initDb`: create the store file with an empty JSON array unless it
already exists.  The file is `none` when absent, `some content` when
present. -/
def initDb (file : Option String) : Option String :=
  match file with
  | none => some "[]"
  | some content => some content

/-- `getPrescriptions`: read and parse the whole store. -/
def getPrescriptions (store : List StoredRecord) : List StoredRecord := store

/-- `savePrescription`: read the full list, append a new record with a
fresh id (`Date.now()`), rewrite the file; returns the new store and the
new record. -/
def savePrescription (now : Nat) (iso : String) (prescription : Option Json)
    (store : List StoredRecord) : List StoredRecord × StoredRecord :=
  let prescriptions := getPrescriptions store
  let newPrescription : StoredRecord := { id := now, data := prescription, created_at := iso }
  (prescriptions ++ [newPrescription], newPrescription)

/-- N serialized appends: each input is a `(Date.now(), toISOString(),
payload)` triple sampled at that append. -/
def appendAll (store : List StoredRecord) : List (Nat × String × Option Json) → List StoredRecord
  | [] => store
  | (t, iso, p) :: rest => appendAll (savePrescription t iso p store).1 rest

theorem appendAll_eq (inputs : List (Nat × String × Option Json)) :
    ∀ store, appendAll store inputs =
      store ++ inputs.map (fun x => ⟨x.1, x.2.2, x.2.1⟩) := by
  induction inputs with
  | nil => intro store; simp [appendAll]
  | cons x rest ih =>
    intro store
    obtain ⟨t, iso, p⟩ := x
    simp [appendAll, savePrescription, getPrescriptions, ih, List.append_assoc]

/-- C3 (amended): N serialized appends to an empty store yield exactly N
records, in append order, each carrying the payload and timestamp given at
its append, with id equal to the `Date.now()` reading of that append; the
ids are pairwise distinct and strictly increasing *provided the
millisecond clock strictly increases between successive appends* (the code
takes `id = Date.now()`, so same-millisecond serialized appends collide —
see the counterexample). -/
theorem store_append_order_ids (inputs : List (Nat × String × Option Json))
    (hmono : List.Chain' (· < ·) (inputs.map (fun x => x.1))) :
    (appendAll [] inputs).length = inputs.length ∧
    (appendAll [] inputs).map (fun r => (r.id, r.data, r.created_at)) =
      inputs.map (fun x => (x.1, x.2.2, x.2.1)) ∧
    List.Chain' (· < ·) ((appendAll [] inputs).map (fun r => r.id)) ∧
    List.Pairwise (· ≠ ·) ((appendAll [] inputs).map (fun r => r.id)) := by
  have he : appendAll [] inputs = inputs.map (fun x => ⟨x.1, x.2.2, x.2.1⟩) := by
    rw [appendAll_eq]
    simp
  have hids : (appendAll [] inputs).map (fun r => r.id) = inputs.map (fun x => x.1) := by
    rw [he, List.map_map]
    rfl
  refine ⟨by rw [he]; simp, by rw [he, List.map_map]; rfl, hids ▸ hmono, ?_⟩
  rw [hids]
  have hpw : List.Pairwise (· < ·) (inputs.map (fun x => x.1)) :=
    List.chain'_iff_pairwise.mp hmono
  exact hpw.imp Nat.ne_of_lt

/-- C3 fails as stated: two appends serialized within the same millisecond
(`Date.now()` reads 5 twice) produce ids `[5, 5]`, which are neither
pairwise distinct nor strictly increasing. -/
theorem store_ids_collide_counterexample :
    (appendAll [] [(5, "2025-01-01T00:00:00.005Z", some (Json.str "a")),
                   (5, "2025-01-01T00:00:00.005Z", some (Json.str "b"))]).map
        (fun r => r.id) = [5, 5] ∧
    ¬ List.Pairwise (· ≠ ·) ([5, 5] : List Nat) ∧
    ¬ List.Chain' (· < ·) ([5, 5] : List Nat) := by
  refine ⟨rfl, ?_, by simp [List.chain'_cons]⟩
  intro h
  exact (List.pairwise_cons.mp h).1 5 (List.mem_singleton.mpr rfl) rfl

/-- Witness for `store_append_order_ids` on two appends in distinct
milliseconds. -/
theorem store_append_order_ids_witness :
    (appendAll [] [(1, "a", (none : Option Json)), (2, "b", none)]).map (fun r => r.id) =
        [1, 2] ∧
    List.Pairwise (· ≠ ·) ((appendAll [] [(1, "a", (none : Option Json)),
      (2, "b", none)]).map (fun r => r.id)) :=
  ⟨rfl, (store_append_order_ids [(1, "a", none), (2, "b", none)]
    (by simp [List.chain'_cons])).2.2.2⟩

/-! ## Claim C8 — `initDb` idempotence -/

/-- C8: `initDb` creates the file holding an empty JSON array when it is
absent, leaves an existing file untouched, and iterating it any number of
further times changes nothing. -/
theorem initDb_idempotent :
    initDb none = some "[]" ∧
    (∀ content, initDb (some content) = some content) ∧
    (∀ (file : Option String) (n : Nat),
      Nat.iterate initDb n (initDb file) = initDb file) := by
  refine ⟨rfl, fun _ => rfl, ?_⟩
  intro file n
  induction n with
  | zero => rfl
  | succ k ih =>
    have hfix : initDb (initDb file) = initDb file := by
      cases file <;> rfl
    calc Nat.iterate initDb (k + 1) (initDb file)
        = Nat.iterate initDb k (initDb (initDb file)) := by
          rw [Function.iterate_succ_apply]
      _ = Nat.iterate initDb k (initDb file) := by rw [hfix]
      _ = initDb file := ih

/-! ## Claim C10 — POST /api/prescriptions without `data` -/

/-- JSON.stringify on a stored record: object keys in insertion order;
a property whose value is `undefined` is dropped entirely. -/
def serializeRecord (r : StoredRecord) : Json :=
  Json.obj ([("id", Json.num r.id)] ++
    (match r.data with
     | none => []
     | some d => [("data", d)]) ++
    [("created_at", Json.str r.created_at)])

/-- The keys of a serialized JSON object. -/
def objKeys : Json → List String
  | .obj fields => fields.map (fun f => f.1)
  | _ => []

/-- POST /api/prescriptions: destructure `data` from the body (absent →
`undefined`), append it to the store, respond `success: true` with the new
id. -/
def prescriptionsHandler (now : Nat) (iso : String) (reqData : Option Json)
    (store : List StoredRecord) : List StoredRecord × (Bool × Nat) :=
  let saved := savePrescription now iso reqData store
  (saved.1, (true, saved.2.id))

/-- C10: a body lacking the `data` key does not fail: the handler answers
success with the generated id, the record is appended, and its JSON
serialization has exactly the keys `id` and `created_at` — no `data` key,
because `JSON.stringify` drops `undefined` properties. -/
theorem prescriptions_missing_data_ok (now : Nat) (iso : String)
    (store : List StoredRecord) :
    (prescriptionsHandler now iso none store).2 = (true, now) ∧
    (prescriptionsHandler now iso none store).1 =
      store ++ [⟨now, none, iso⟩] ∧
    objKeys (serializeRecord ⟨now, none, iso⟩) = ["id", "created_at"] ∧
    "data" ∉ objKeys (serializeRecord ⟨now, none, iso⟩) := by
  refine ⟨rfl, rfl, rfl, ?_⟩
  intro h
  rw [show objKeys (serializeRecord ⟨now, none, iso⟩) = ["id", "created_at"] from rfl] at h
  simp at h

/-! ## The extraction client (`src/services/gemini.ts`)

`processPrescriptionImage(base64Image, mimeType)` builds one
`generateContent` request whose inline data is
`base64Image.split(",")[1] || base64Image`, awaits the single response,
throws "No response from AI" when `response.text` is falsy, and otherwise
returns `JSON.parse(text)` unchanged.  The provider and `JSON.parse` are
modelled as function parameters; the structure below mirrors the
`PrescriptionResult` interface (JS numbers as rationals). -/

/-- One medication entry of the extraction schema. -/
structure MedicationEntry where
  name : String
  dosage : String
  frequency : String
  duration : String
  quantity : Rat
  instructions : String
  confidence : Rat

/-- The metadata block of the extraction schema (`doctor_name` may be
absent at runtime: the server reads it through `?.`). -/
structure PrescriptionMetadata where
  prescription_date : String
  doctor_name : Option String
  image_quality : String
  has_handwriting : Bool

/-- The typed extraction result (`PrescriptionResult` in the source). -/
structure PrescriptionResult where
  status : String
  confidence : Rat
  extracted_text : String
  medications : List MedicationEntry
  metadata : PrescriptionMetadata
  errors : List String

/-- JS `s.split(sep)` producing strings. -/
def jsSplit (sep : Char) (s : String) : List String :=
  (splitChar sep s.data).map (fun l => ⟨l⟩)

/-- The inline data transmitted to the provider:
`base64Image.split(",")[1] || base64Image`. -/
def transmittedData (base64Image : String) : String :=
  match (jsSplit ',' base64Image).get? 1 with
  | some t => if t = "" then base64Image else t
  | none => base64Image

/-- The single `generateContent` request the client builds. -/
structure GenRequest where
  model : String
  inlineData : String
  mimeType : String

/-- The request built from the image payload and MIME type. -/
def buildRequest (base64Image mimeType : String) : GenRequest :=
  { model := "gemini-3-flash-preview"
    inlineData := transmittedData base64Image
    mimeType := mimeType }

/-- Failure conditions of the extraction call. -/
inductive ExtractFailure where
  | aiEmptyResponse
  | parseError
deriving DecidableEq

/-- The extraction call.  `genContent` is the provider (its text response;
`none` models an absent `response.text`), `parse` models `JSON.parse`
(`none` = exception).  Returns the outcome and the number of provider
calls issued (the code makes exactly one, with no retry). -/
def processPrescriptionImage (genContent : GenRequest → Option String)
    (parse : String → Option PrescriptionResult)
    (base64Image mimeType : String) :
    Except ExtractFailure PrescriptionResult × Nat :=
  let response := genContent (buildRequest base64Image mimeType)
  (match response with
   | none => .error .aiEmptyResponse
   | some text =>
     if text = "" then .error .aiEmptyResponse
     else
       match parse text with
       | none => .error .parseError
       | some result => .ok result,
   1)

/-! ## Claim C5 — extraction dispatch -/

/-- C5: for every provider and image, the extraction call issues exactly
one provider request (no retry); an absent or empty text response fails
with AI_EMPTY_RESPONSE; a non-empty unparsable response fails with a parse
error; a parsable response is returned exactly as parsed (pass-through,
no re-validation of its field values). -/
theorem extraction_dispatch (genContent : GenRequest → Option String)
    (parse : String → Option PrescriptionResult) (img mime : String) :
    (processPrescriptionImage genContent parse img mime).2 = 1 ∧
    (genContent (buildRequest img mime) = none →
      (processPrescriptionImage genContent parse img mime).1 = .error .aiEmptyResponse) ∧
    (genContent (buildRequest img mime) = some "" →
      (processPrescriptionImage genContent parse img mime).1 = .error .aiEmptyResponse) ∧
    (∀ text, genContent (buildRequest img mime) = some text → text ≠ "" →
      parse text = none →
      (processPrescriptionImage genContent parse img mime).1 = .error .parseError) ∧
    (∀ text result, genContent (buildRequest img mime) = some text → text ≠ "" →
      parse text = some result →
      (processPrescriptionImage genContent parse img mime).1 = .ok result) := by
  refine ⟨rfl, ?_, ?_, ?_, ?_⟩
  · intro h
    simp [processPrescriptionImage, h]
  · intro h
    simp [processPrescriptionImage, h]
  · intro text h hne hp
    simp [processPrescriptionImage, h, hne, hp]
  · intro text result h hne hp
    simp [processPrescriptionImage, h, hne, hp]

/-- A concrete schema-conformant result used by the C5 witness. -/
def sampleResult : PrescriptionResult :=
  { status := "success"
    confidence := 9/10
    extracted_text := "Amoxicillin 500mg"
    medications := [{ name := "Amoxicillin", dosage := "500mg",
                      frequency := "twice a day", duration := "7 days",
                      quantity := 14, instructions := "after food",
                      confidence := 9/10 }]
    metadata := { prescription_date := "2025-03-04",
                  doctor_name := some "Dr. Jane Smith",
                  image_quality := "good", has_handwriting := true }
    errors := [] }

/-- Witness for `extraction_dispatch`: a mocked provider returning a
parsable body is passed through unchanged. -/
theorem extraction_dispatch_witness :
    (processPrescriptionImage (fun _ => some "resp")
      (fun t => if t = "resp" then some sampleResult else none)
      "img" "image/png").1 = .ok sampleResult :=
  (extraction_dispatch (fun _ => some "resp")
      (fun t => if t = "resp" then some sampleResult else none) "img" "image/png").2.2.2.2
    "resp" sampleResult rfl (by decide) (by simp)

/-! ## Claim C7 — the data-URL prefix strip -/

/-- C7 fails as stated: for the data-URL payload
`data:image/png;base64,QQ==,extra` — metadata prefix, comma, then the
payload `QQ==,extra` — the code transmits only the segment between the
first and second commas (`QQ==`), not the payload with the prefix
stripped (`QQ==,extra`): `split(",")[1]` is the second segment, not the
remainder. -/
theorem transmitted_data_counterexample :
    transmittedData "data:image/png;base64,QQ==,extra" = "QQ==" ∧
    transmittedData "data:image/png;base64,QQ==,extra" ≠ "QQ==,extra" := by
  constructor
  · rfl
  · intro h
    exact absurd h (by decide)

/-- C7 (amended): a payload with no comma is transmitted unchanged; a
payload of the form `<prefix>,<data>` with comma-free prefix and nonempty
comma-free data (every well-formed data URL, base64 having no comma) is
transmitted as `<data>`; but when the segment between the first and second
commas is empty, the `|| base64Image` fallback transmits the whole
payload unchanged, prefix included. -/
theorem transmitted_data_amended :
    (∀ s : String, ',' ∉ s.data → transmittedData s = s) ∧
    (∀ p d : String, ',' ∉ p.data → ',' ∉ d.data → d ≠ "" →
      transmittedData (p ++ "," ++ d) = d) ∧
    (∀ p : String, ',' ∉ p.data → transmittedData (p ++ ",") = p ++ ",") := by
  refine ⟨?_, ?_, ?_⟩
  · intro s hs
    unfold transmittedData jsSplit
    rw [splitChar_of_not_mem ',' hs]
    rfl
  · intro p d hp hd hdne
    have hdata : (p ++ "," ++ d).data = p.data ++ ',' :: d.data := by
      rw [String.data_append, String.data_append]
      simp [show ("," : String).data = [','] from rfl]
    unfold transmittedData jsSplit
    rw [hdata, splitChar_append, splitChar_of_not_mem ',' hp, splitChar_of_not_mem ',' hd]
    simp only [List.singleton_append, List.map_cons, List.map_nil]
    show (if (⟨d.data⟩ : String) = "" then p ++ "," ++ d else ⟨d.data⟩) = d
    rw [if_neg (fun h => hdne h)]
  · intro p hp
    have hdata : (p ++ ",").data = p.data ++ ',' :: [] := by
      rw [String.data_append]
    unfold transmittedData jsSplit
    rw [hdata, splitChar_append, splitChar_of_not_mem ',' hp]
    rfl

/-- Witness for `transmitted_data_amended`: a well-formed data URL has its
metadata prefix stripped. -/
theorem transmitted_data_amended_witness :
    transmittedData ("data:image/png;base64" ++ "," ++ "iVBOR") = "iVBOR" :=
  transmitted_data_amended.2.1 "data:image/png;base64" "iVBOR"
    (by decide) (by decide) (by decide)

/-! ## Claim C9 — POST /api/save-result rejects every falsy `result` -/

/-- Property lookup on a JSON object's field list (first match). -/
def jsonLookup (fields : List (String × Json)) (k : String) : Option Json :=
  match fields with
  | [] => none
  | (k2, v) :: rest => if k2 = k then some v else jsonLookup rest k

/-- `result.metadata?.doctor_name?.replace(...)`'s subject: reading
`doctor_name` through optional chaining.  Property access on a non-object
yields `undefined` (→ `none`, later defaulted to "unknown"); `?.` passes
`null`/`undefined` through; but calling `.replace` on a present value
that is not a string is a TypeError (→ `Except.error`), caught by the
handler as a 500. -/
def doctorNameOf (result : Json) : Except Unit (Option String) :=
  match result with
  | .obj fields =>
    match jsonLookup fields "metadata" with
    | some (.obj metaFields) =>
      match jsonLookup metaFields "doctor_name" with
      | some (.str s) => .ok (some s)
      | some .null => .ok none
      | none => .ok none
      | some _ => .error ()
    | _ => .ok none
  | _ => .ok none

/-- Outcome of POST /api/save-result. -/
inductive SaveOutcome where
  | badRequest
  | saved (filename filepath : String)
  | serverError
deriving DecidableEq

/-- The save-result handler: destructure `result`, answer 400 when it is
falsy ("No result data provided"), otherwise compute the filename from
the doctor name and the clock reading `iso` and write under `results`
(500 when the doctor-name access throws). -/
def saveResultHandler (iso : String) (result : Option Json) : SaveOutcome :=
  if isFalsy result then .badRequest
  else
    match result with
    | none => .badRequest
    | some r =>
      match doctorNameOf r with
      | .error _ => .serverError
      | .ok dn => .saved (makeFilename dn iso) (savedFilepath dn iso)

/-- C9: the endpoint answers 400 for *every* falsy `result`, not only an
absent one — in particular `0`, `""`, `null` and `false` are refused as
"no result data provided" even though a value was supplied. -/
theorem saveResult_rejects_falsy (iso : String) (v : Option Json)
    (h : isFalsy v = true) : saveResultHandler iso v = .badRequest := by
  simp [saveResultHandler, h]

/-- Witness for `saveResult_rejects_falsy` on the supplied-but-falsy
bodies the claim names, plus `null`, `false` and the absent key. -/
theorem saveResult_rejects_falsy_witness :
    saveResultHandler "2025-01-01T00:00:00.000Z" (some (Json.num 0)) = .badRequest ∧
    saveResultHandler "2025-01-01T00:00:00.000Z" (some (Json.str "")) = .badRequest ∧
    saveResultHandler "2025-01-01T00:00:00.000Z" (some Json.null) = .badRequest ∧
    saveResultHandler "2025-01-01T00:00:00.000Z" (some (Json.bool false)) = .badRequest ∧
    saveResultHandler "2025-01-01T00:00:00.000Z" none = .badRequest :=
  ⟨saveResult_rejects_falsy _ _ (by decide), saveResult_rejects_falsy _ _ (by decide),
   saveResult_rejects_falsy _ _ rfl, saveResult_rejects_falsy _ _ rfl,
   saveResult_rejects_falsy _ _ rfl⟩

end OcrSpec
